import Mathlib

/-!
Verification of the multi-object tracking core of this repository
(`backend/scripts/tracking_service.py`).

The Python source is shallowly embedded below.  Conventions:

* Python floats are modelled as rationals (`ℚ`); the two places the source
  takes a real square root (`math.sqrt` in `calculate_bbox_variation`,
  `np.std` in `Track.update`) are parameterised by an abstract function
  `sqrtFn : ℚ → ℚ`, and every theorem quantifies over it.
* Python lists are Lean lists; a bounding box `[x1, y1, x2, y2]` is the
  four-field structure `Box`.
* `EnhancedTracker.associate_detections_to_tracks` first handles the empty
  cases and then either runs scipy's `linear_sum_assignment` (when scipy
  is importable) or falls back to `greedy_assignment`.  The
  solver-dependent part is the parameter `core`; the two concrete cores of
  the source are embedded as `hungarianAssoc` (parameterised by the index
  pairs the exact solver returns) and `greedy_assignment` (fuelled, because
  the source's loop re-appends unmatched detections to the list being
  iterated and need not terminate).
* Python mutates `Track` objects in place and tests list membership by
  object identity.  Tracks are value types here; the per-frame update is
  realised as one pass over the (predicted) pool that applies the matched
  detection, found by `track_id` (track ids are unique in the pool, so id
  equality coincides with Python's object identity), or `mark_missed`.
-/

/-- A bounding box `[x1, y1, x2, y2]` in pixel coordinates. -/
structure Box where
  x1 : ℚ
  y1 : ℚ
  x2 : ℚ
  y2 : ℚ
deriving DecidableEq, Repr, Inhabited

/-- The strings assigned to `Track.state` in the source
(`'deleted'` appears only in a comment and is never assigned). -/
inductive TrackState where
  | tentative
  | confirmed
  | deleted
deriving DecidableEq, Repr

/-- `Detection.__init__`: one observed object instance in one frame. -/
structure Detection where
  bbox : Box
  confidence : ℚ
  class_id : ℤ
  class_name : String
deriving DecidableEq, Repr

instance : Inhabited Detection :=
  ⟨{ bbox := default, confidence := 0, class_id := 0, class_name := "" }⟩

/-- The mutable state of one `Track` object. -/
structure Track where
  bbox : Box
  confidence : ℚ
  class_id : ℤ
  class_name : String
  track_id : ℕ
  hits : ℕ
  age : ℕ
  time_since_update : ℕ
  state : TrackState
  history : List Box
  confidence_history : List ℚ
  velocity : ℚ × ℚ
  acceleration : ℚ × ℚ
  stability_score : ℚ
  consistency_score : ℚ
  quality_score : ℚ
deriving DecidableEq, Repr

instance : Inhabited Track :=
  ⟨{ bbox := default, confidence := 0, class_id := 0, class_name := ""
     track_id := 0, hits := 0, age := 0, time_since_update := 0
     state := TrackState.tentative, history := [], confidence_history := []
     velocity := (0, 0), acceleration := (0, 0)
     stability_score := 0, consistency_score := 0, quality_score := 0 }⟩

/-- `Track.__init__(bbox, confidence, class_id, class_name, track_id)`. -/
def Track.init (bbox : Box) (confidence : ℚ) (class_id : ℤ)
    (class_name : String) (track_id : ℕ) : Track :=
  { bbox := bbox, confidence := confidence, class_id := class_id
    class_name := class_name, track_id := track_id
    hits := 1, age := 0, time_since_update := 0
    state := TrackState.tentative
    history := [bbox], confidence_history := [confidence]
    velocity := (0, 0), acceleration := (0, 0)
    stability_score := 1, consistency_score := 1
    quality_score := confidence }

/-- Center x of a box, `(bbox[0] + bbox[2]) / 2`. -/
def Box.cx (b : Box) : ℚ := (b.x1 + b.x2) / 2

/-- Center y of a box, `(bbox[1] + bbox[3]) / 2`. -/
def Box.cy (b : Box) : ℚ := (b.y1 + b.y2) / 2

/-- `l[-n:]` on a Python list. -/
def lastN (n : ℕ) (l : List Box) : List Box := l.drop (l.length - n)

/-- `l[-n:]` on a Python list of floats. -/
def lastNQ (n : ℕ) (l : List ℚ) : List ℚ := l.drop (l.length - n)

/-- The last two elements `(l[-2], l[-1])` of a list, when it has at least two. -/
def lastTwo (l : List Box) : Option (Box × Box) :=
  match l.reverse with
  | curr :: prev :: _ => some (prev, curr)
  | _ => none

/-- `np.mean` over a list of floats. -/
def npMean (l : List ℚ) : ℚ := l.sum / (l.length : ℚ)

/-- `np.std` (population standard deviation): square root of the mean
squared deviation.  The square root is the abstract `sqrtFn`. -/
def npStd (sqrtFn : ℚ → ℚ) (l : List ℚ) : ℚ :=
  sqrtFn (npMean (l.map (fun x => (x - npMean l) ^ 2)))

/-- `Track.calculate_bbox_variation`: Euclidean distance between the two
box centers; the square root is the abstract `sqrtFn`. -/
def bboxVariation (sqrtFn : ℚ → ℚ) (b1 b2 : Box) : ℚ :=
  sqrtFn ((b1.cx - b2.cx) ^ 2 + (b1.cy - b2.cy) ^ 2)

/-- The list `bbox_variations` built by the loop
`for i in range(1, len(recent_bboxes))`. -/
def consecutiveVariations (sqrtFn : ℚ → ℚ) : List Box → List ℚ
  | b1 :: b2 :: rest =>
      bboxVariation sqrtFn b1 b2 :: consecutiveVariations sqrtFn (b2 :: rest)
  | _ => []

/-- The state change performed by `Track.predict`: when the history has at
least two entries, blend the instantaneous center displacement of the last
two boxes into `velocity` (`new = 0.7 * old + 0.3 * instantaneous`);
otherwise no change.  The predicted box the method returns is
`Track.predictedBox` below; the caller (`EnhancedTracker.update`) discards
it. -/
def Track.predictEffect (t : Track) : Track :=
  match lastTwo t.history with
  | some (prev, curr) =>
      { t with velocity :=
          (7/10 * t.velocity.1 + 3/10 * (curr.cx - prev.cx),
           7/10 * t.velocity.2 + 3/10 * (curr.cy - prev.cy)) }
  | none => t

/-- The return value of `Track.predict`: the current box shifted by the
(just smoothed) velocity, same width and height. -/
def Track.predictedBox (t : Track) : Box :=
  match lastTwo t.history with
  | some (prev, curr) =>
      let vx := 7/10 * t.velocity.1 + 3/10 * (curr.cx - prev.cx)
      let vy := 7/10 * t.velocity.2 + 3/10 * (curr.cy - prev.cy)
      let px := curr.cx + vx
      let py := curr.cy + vy
      let width := curr.x2 - curr.x1
      let height := curr.y2 - curr.y1
      { x1 := px - width / 2, y1 := py - height / 2
        x2 := px + width / 2, y2 := py + height / 2 }
  | none => t.bbox

/-- `Track.update(bbox, confidence)`. -/
def Track.update (sqrtFn : ℚ → ℚ) (t : Track) (bbox : Box)
    (confidence : ℚ) : Track :=
  let history1 := t.history ++ [bbox]
  let confidenceHistory1 := t.confidence_history ++ [confidence]
  let history2 := if 15 < history1.length then lastN 15 history1 else history1
  let confidenceHistory2 :=
    if 15 < history1.length then lastNQ 15 confidenceHistory1
    else confidenceHistory1
  let stability :=
    if 3 ≤ history2.length then
      1 - min 1 (npMean (consecutiveVariations sqrtFn (lastN 3 history2)) / 100)
    else t.stability_score
  let consistency :=
    if 3 ≤ confidenceHistory2.length then
      1 - min 1 (npStd sqrtFn (lastNQ 5 confidenceHistory2))
    else t.consistency_score
  let quality := (confidence + stability + consistency) / 3
  let hits1 := t.hits + 1
  let state1 :=
    if 3 ≤ hits1 ∧ (6:ℚ)/10 < quality then TrackState.confirmed
    else if 1 ≤ hits1 then TrackState.tentative
    else t.state
  { t with
      bbox := bbox, confidence := confidence, hits := hits1,
      age := t.age + 1, time_since_update := 0,
      history := history2, confidence_history := confidenceHistory2,
      stability_score := stability, consistency_score := consistency,
      quality_score := quality, state := state1 }

/-- `Track.mark_missed()`. -/
def Track.markMissed (t : Track) : Track :=
  { t with
      time_since_update := t.time_since_update + 1,
      age := t.age + 1,
      quality_score := t.quality_score * (95/100) }

/-- `EnhancedTracker.iou(bbox1, bbox2)`. -/
def iou (b1 b2 : Box) : ℚ :=
  let x1 := max b1.x1 b2.x1
  let y1 := max b1.y1 b2.y1
  let x2 := min b1.x2 b2.x2
  let y2 := min b1.y2 b2.y2
  let intersection := max 0 (x2 - x1) * max 0 (y2 - y1)
  let area1 := (b1.x2 - b1.x1) * (b1.y2 - b1.y1)
  let area2 := (b2.x2 - b2.x1) * (b2.y2 - b2.y1)
  let union := area1 + area2 - intersection
  if 0 < union then intersection / union else 0

/-- The result triple of `associate_detections_to_tracks`:
`(matched, unmatched_detections, unmatched_tracks)`. -/
abbrev AssocResult := List (Track × Detection) × List Detection × List Track

/-- The cost matrix of `associate_detections_to_tracks` (lines 263-267):
`cost_matrix[i, j] = 1 - iou(tracks[i].bbox, detections[j].bbox)`. -/
def costMatrix (tracks : List Track) (detections : List Detection) :
    List (List ℚ) :=
  tracks.map (fun t => detections.map (fun d => 1 - iou t.bbox d.bbox))

/-- `EnhancedTracker.associate_detections_to_tracks`: the empty cases are
handled first; `core` stands for the remainder of the method, whose
behavior depends on whether scipy is importable (`hungarianAssoc` applied
to the exact solver output, or the `greedy_assignment` fallback). -/
def associate (core : List Detection → List Track → AssocResult)
    (detections : List Detection) (tracks : List Track) : AssocResult :=
  if tracks.length = 0 then ([], detections, [])
  else if detections.length = 0 then ([], [], tracks)
  else core detections tracks

/-- The loop `for i, j in zip(track_indices, detection_indices)` of the
scipy branch: a proposed pair is accepted only if
`cost_matrix[i, j] < 1 - iou_threshold`, otherwise both sides are pushed
into the unmatched lists.  Accumulator: `(matched, unmatched_tracks,
unmatched_detections)`. -/
def lsaSplitAux (thr : ℚ) (tracks : List Track)
    (detections : List Detection)
    (acc : List (Track × Detection) × List Track × List Detection) :
    List (ℕ × ℕ) → List (Track × Detection) × List Track × List Detection
  | [] => acc
  | ij :: rest =>
      let t := tracks.getD ij.1 default
      let d := detections.getD ij.2 default
      if 1 - iou t.bbox d.bbox < 1 - thr then
        lsaSplitAux thr tracks detections
          (acc.1 ++ [(t, d)], acc.2.1, acc.2.2) rest
      else
        lsaSplitAux thr tracks detections
          (acc.1, acc.2.1 ++ [t], acc.2.2 ++ [d]) rest

/-- See `lsaSplitAux`: the loop starts from three empty lists. -/
def lsaSplit (thr : ℚ) (tracks : List Track) (detections : List Detection)
    (pairs : List (ℕ × ℕ)) :
    List (Track × Detection) × List Track × List Detection :=
  lsaSplitAux thr tracks detections ([], [], []) pairs

/-- The scipy branch of `associate_detections_to_tracks`, parameterised by
the index pairs `zip(track_indices, detection_indices)` returned by
`linear_sum_assignment`: filter the proposed pairs by the IoU threshold,
then append every track index and detection index the solver left out. -/
def hungarianAssoc (thr : ℚ) (tracks : List Track)
    (detections : List Detection) (pairs : List (ℕ × ℕ)) : AssocResult :=
  let split := lsaSplit thr tracks detections pairs
  let extraTracks :=
    ((tracks.enum.filter (fun p => decide (¬ p.1 ∈ pairs.map Prod.fst))).map
      Prod.snd)
  let extraDets :=
    ((detections.enum.filter
        (fun p => decide (¬ p.1 ∈ pairs.map Prod.snd))).map Prod.snd)
  (split.1, split.2.2 ++ extraDets, split.2.1 ++ extraTracks)

/-- Stable insertion into a list sorted by descending confidence: the new
element goes after every element of strictly higher confidence and before
the first of equal or lower confidence. -/
def insertDesc (d : Detection) : List Detection → List Detection
  | [] => [d]
  | e :: rest =>
      if d.confidence < e.confidence then e :: insertDesc d rest
      else d :: e :: rest

/-- Python's stable `sort(key=lambda x: x.confidence, reverse=True)`. -/
def sortByConfDesc (l : List Detection) : List Detection :=
  l.foldr insertDesc []

/-- The inner loop of `greedy_assignment` selecting the still-unmatched
track of highest IoU to `d`, subject to `iou > best_iou` (starting at 0)
and `iou > iou_threshold`. -/
def bestTrackAux (thr : ℚ) (d : Detection) (acc : Option Track × ℚ) :
    List Track → Option Track × ℚ
  | [] => acc
  | t :: rest =>
      let i := iou t.bbox d.bbox
      bestTrackAux thr d (if acc.2 < i ∧ thr < i then (some t, i) else acc)
        rest

/-- See `bestTrackAux`: `best_track` starts at `None`, `best_iou` at 0. -/
def bestTrack (thr : ℚ) (pool : List Track) (d : Detection) : Option Track :=
  (bestTrackAux thr d ((none : Option Track), (0 : ℚ)) pool).1

/-- The `for detection in unmatched_detections` loop of
`greedy_assignment`.  Python iterates by index over a list it mutates:
on a match the track is removed from the pool, and on a failure the very
detection being processed is appended back onto the list being iterated,
so the loop need not terminate; `fuel` bounds the number of iterations and
`none` means the fuel ran out. -/
def greedyLoop (thr : ℚ) :
    ℕ → ℕ → List Detection → List Track → List (Track × Detection) →
    Option AssocResult
  | 0, _, _, _, _ => none
  | fuel + 1, i, dets, pool, matched =>
    if h : i < dets.length then
      let d := dets.get ⟨i, h⟩
      match bestTrack thr pool d with
      | some t => greedyLoop thr fuel (i + 1) dets (pool.erase t)
          (matched ++ [(t, d)])
      | none => greedyLoop thr fuel (i + 1) (dets ++ [d]) pool matched
    else
      some (matched, dets, pool)

/-- `EnhancedTracker.greedy_assignment(detections, tracks)` (fuelled). -/
def greedy_assignment (thr : ℚ) (fuel : ℕ) (detections : List Detection)
    (tracks : List Track) : Option AssocResult :=
  greedyLoop thr fuel 0 (sortByConfDesc detections) tracks []

/-- The state of an `EnhancedTracker` instance. -/
structure EnhancedTracker where
  max_age : ℕ
  min_hits : ℕ
  iou_threshold : ℚ
  tracks : List Track
  frame_count : ℕ
  next_id : ℕ
deriving DecidableEq, Repr

/-- `EnhancedTracker.__init__(max_age=30, min_hits=3, iou_threshold=0.3)`. -/
def EnhancedTracker.init (max_age : ℕ) (min_hits : ℕ) (iou_threshold : ℚ) :
    EnhancedTracker :=
  { max_age := max_age, min_hits := min_hits, iou_threshold := iou_threshold
    tracks := [], frame_count := 0, next_id := 1 }

/-- The loop creating new tracks from unmatched high-confidence
detections: sequential ids starting at `startId`. -/
def createTracks (startId : ℕ) : List Detection → List Track
  | [] => []
  | d :: rest =>
      Track.init d.bbox d.confidence d.class_id d.class_name startId ::
        createTracks (startId + 1) rest

/-- The detection matched to the track with the given id, if any.  Python
updates matched tracks in place through the pair references and later
tests membership by object identity; track ids are unique in the pool, so
looking the pool track up by `track_id` among the matched pairs realises
the same thing on values. -/
def findMatch (ms : List (Track × Detection)) (t : Track) :
    Option Detection :=
  (ms.find? (fun p => decide (p.1.track_id = t.track_id))).map Prod.snd

/-- The per-track effect of the stage-update loops
(`for track, detection in matched_X: track.update(...)`) together with the
miss-accounting loop (`for track in self.tracks: if track not in
all_matched_tracks: track.mark_missed()`): a pool track matched to some
detection receives `update` with it, every other pool track receives
`mark_missed`. -/
def applyMatch (sqrtFn : ℚ → ℚ) (ms : List (Track × Detection))
    (t : Track) : Track :=
  match findMatch ms t with
  | some d => Track.update sqrtFn t d.bbox d.confidence
  | none => t.markMissed

/-- All intermediate values of one `EnhancedTracker.update(detections)`
call. -/
structure UpdateTrace where
  predicted : List Track
  highDets : List Detection
  lowDets : List Detection
  confirmedTracks : List Track
  tentativeTracks : List Track
  matchedA : List (Track × Detection)
  unmatchedHigh : List Detection
  unmatchedConfirmed : List Track
  matchedB : List (Track × Detection)
  unmatchedConfirmedAfterHigh : List Track
  matchedC : List (Track × Detection)
  created : List Track
  newNextId : ℕ
  survivors : List Track

/-- `EnhancedTracker.update(detections)`, step by step:
predict on every track, split the detections at confidence `0.5`,
associate high-confidence detections with confirmed then tentative tracks,
associate low-confidence detections with the confirmed tracks left
unmatched, create tracks for unmatched high-confidence detections, append
them to the pool, `mark_missed` every pool track (including the freshly
created ones, which are never in `all_matched_tracks`) that is not among
the matched ones, and finally drop every track with
`time_since_update >= max_age`. -/
def EnhancedTracker.updateTrace
    (core : List Detection → List Track → AssocResult) (sqrtFn : ℚ → ℚ)
    (s : EnhancedTracker) (detections : List Detection) : UpdateTrace :=
  let predicted := s.tracks.map Track.predictEffect
  let highDets := detections.filter (fun d => decide ((1:ℚ)/2 ≤ d.confidence))
  let lowDets := detections.filter (fun d => decide (d.confidence < (1:ℚ)/2))
  let confirmedTracks :=
    predicted.filter (fun t => decide (t.state = TrackState.confirmed))
  let tentativeTracks :=
    predicted.filter (fun t => decide (t.state = TrackState.tentative))
  let stageA := associate core highDets confirmedTracks
  let matchedA := stageA.1
  let unmatchedHigh := stageA.2.1
  let unmatchedConfirmed := stageA.2.2
  let stageB := associate core unmatchedHigh tentativeTracks
  let matchedB := stageB.1
  let unmatchedConfirmedAfterHigh :=
    unmatchedConfirmed.filter
      (fun t => decide (¬ t ∈ matchedB.map Prod.fst))
  let stageC := associate core lowDets unmatchedConfirmedAfterHigh
  let matchedC := stageC.1
  let allMatched := matchedA ++ matchedB ++ matchedC
  let creatingDets :=
    unmatchedHigh.filter (fun d => decide (¬ d ∈ matchedB.map Prod.snd))
  let created := createTracks s.next_id creatingDets
  let pooled := predicted ++ created
  let updatedPool := pooled.map (applyMatch sqrtFn allMatched)
  let survivors :=
    updatedPool.filter (fun t => decide (t.time_since_update < s.max_age))
  { predicted := predicted, highDets := highDets, lowDets := lowDets
    confirmedTracks := confirmedTracks, tentativeTracks := tentativeTracks
    matchedA := matchedA, unmatchedHigh := unmatchedHigh
    unmatchedConfirmed := unmatchedConfirmed, matchedB := matchedB
    unmatchedConfirmedAfterHigh := unmatchedConfirmedAfterHigh
    matchedC := matchedC, created := created
    newNextId := s.next_id + creatingDets.length, survivors := survivors }

/-- `EnhancedTracker.update(detections)`: the new tracker state.  The
method's return value is the new `tracks` field. -/
def EnhancedTracker.update
    (core : List Detection → List Track → AssocResult) (sqrtFn : ℚ → ℚ)
    (s : EnhancedTracker) (detections : List Detection) : EnhancedTracker :=
  let tr := s.updateTrace core sqrtFn detections
  { s with
      tracks := tr.survivors,
      frame_count := s.frame_count + 1,
      next_id := tr.newNextId }

/-- `TrackingService.filter_detections(detections)`: sort by descending
confidence and keep the top `max_tracks_per_frame`. -/
def filter_detections (max_tracks_per_frame : ℕ)
    (detections : List Detection) : List Detection :=
  let sorted := sortByConfDesc detections
  let max_detections := min sorted.length max_tracks_per_frame
  sorted.take max_detections

/-- One iteration of the per-frame loop of
`TrackingService.detect_and_track` after the detector ran, restricted to
what it does with the detections and the tracker: filter the detections,
update the tracker, truncate the returned list to `max_tracks_per_frame`
when longer, and emit the tracks with `hits >= min_track_duration`.  The
returned pair is (tracker state after the frame, emitted tracks). -/
def TrackingService.processFrame
    (core : List Detection → List Track → AssocResult) (sqrtFn : ℚ → ℚ)
    (max_tracks_per_frame min_track_duration : ℕ) (s : EnhancedTracker)
    (detections : List Detection) : EnhancedTracker × List Track :=
  let filtered := filter_detections max_tracks_per_frame detections
  let s1 := EnhancedTracker.update core sqrtFn s filtered
  let tracked := s1.tracks
  let capped :=
    if max_tracks_per_frame < tracked.length then
      tracked.take max_tracks_per_frame
    else tracked
  (s1, capped.filter (fun t => decide (min_track_duration ≤ t.hits)))

/-- The statistics record returned by
`TrackingService.calculate_tracking_stats`. -/
structure TrackingStats where
  total_tracks : ℕ
  total_detections : ℕ
  avg_track_duration : ℚ
  track_durations : List (ℕ × ℕ)
deriving DecidableEq, Repr

/-- `track_durations[track_id] += 1` on an insertion-ordered dict
(`if track_id not in track_durations: track_durations[track_id] = 0`). -/
def bumpDuration : List (ℕ × ℕ) → ℕ → List (ℕ × ℕ)
  | [], id => [(id, 1)]
  | (k, v) :: rest, id =>
      if k = id then (k, v + 1) :: rest else (k, v) :: bumpDuration rest id

/-- `TrackingService.calculate_tracking_stats(frame_results)`.  Only the
`track_id` of each emitted entry is read, so a frame result is modelled as
the list of emitted track ids. -/
def calculate_tracking_stats (frame_results : List (List ℕ)) :
    TrackingStats :=
  let acc := frame_results.foldl
    (fun acc frame =>
      let acc1 := (acc.1, acc.2.1 + frame.length, acc.2.2)
      frame.foldl
        (fun a id => (max a.1 id, a.2.1, bumpDuration a.2.2 id)) acc1)
    ((0 : ℕ), (0 : ℕ), ([] : List (ℕ × ℕ)))
  let durations := acc.2.2
  let avg : ℚ :=
    if durations.length = 0 then 0
    else ((durations.map Prod.snd).sum : ℚ) / (durations.length : ℚ)
  { total_tracks := acc.1, total_detections := acc.2.1
    avg_track_duration := avg, track_durations := durations }

/-- A trivial associator core returning no matches; it meets the contract
of `associate_detections_to_tracks` and is used to instantiate theorems
that hold for every core. -/
def noMatchCore (detections : List Detection) (tracks : List Track) :
    AssocResult :=
  ([], detections, tracks)

/-- The value of key `k` in the duration dict, `0` when absent. -/
def durVal (d : List (ℕ × ℕ)) (k : ℕ) : ℕ := (d.lookup k).getD 0

/-- The contract of `associate_detections_to_tracks` observed by both the
exact-solver branch and the greedy fallback: every output element is drawn
from the corresponding input list. -/
def CoreSound (core : List Detection → List Track → AssocResult) : Prop :=
  ∀ (ds : List Detection) (ts : List Track),
    (∀ p ∈ (core ds ts).1, p.1 ∈ ts ∧ p.2 ∈ ds) ∧
    (∀ d ∈ (core ds ts).2.1, d ∈ ds) ∧
    (∀ t ∈ (core ds ts).2.2, t ∈ ts)

/-- Invariant of the duration dict after processing the ids `done`:
keys are distinct, a key is present iff it was seen, its value is the
number of times it was seen, and the values sum to the entries seen. -/
def DurInv (done : List ℕ) (d : List (ℕ × ℕ)) : Prop :=
  (d.map Prod.fst).Nodup ∧
  (∀ k, k ∈ d.map Prod.fst ↔ k ∈ done) ∧
  (∀ k, durVal d k = done.count k) ∧
  (d.map Prod.snd).sum = done.length

/- Concrete sample data used by counterexamples and witnesses. -/

/-- The unit-square-by-ten box `[0, 0, 10, 10]`. -/
def boxA : Box := { x1 := 0, y1 := 0, x2 := 10, y2 := 10 }

/-- The box `[5, 0, 15, 10]`, `boxA` shifted right by 5. -/
def boxB : Box := { x1 := 5, y1 := 0, x2 := 15, y2 := 10 }

/-- A box disjoint from `boxA`: `[100, 100, 110, 110]`. -/
def boxFar : Box := { x1 := 100, y1 := 100, x2 := 110, y2 := 110 }

/-- A well-formed high-confidence detection at `boxA`. -/
def detA : Detection :=
  { bbox := boxA, confidence := 1, class_id := 0, class_name := "person" }

/-- A malformed detection: `x2 <= x1`, `y2 <= y1` and confidence `2`,
outside `[0, 1]`. -/
def badDet : Detection :=
  { bbox := { x1 := 10, y1 := 10, x2 := 0, y2 := 0 }, confidence := 2,
    class_id := 0, class_name := "person" }

/-- A track at `boxA`. -/
def trackA : Track := Track.init boxA 1 0 "person" 1

/-- A track far away from `boxA` (IoU with `boxA` is 0). -/
def trackFar : Track := Track.init boxFar 1 0 "person" 1

/-- A track with a two-entry history, for exercising `predict`. -/
def trackH2 : Track := { Track.init boxA 1 0 "person" 1 with
  history := [boxA, boxB], bbox := boxB }

/-- A fresh track that has been emitted in one frame (`hits = 1`). -/
def tLow : Track := Track.init boxA 1 0 "person" 1

/-- A longer-lived track (`hits = 5`), listed after `tLow` in the pool. -/
def tHigh : Track := { Track.init boxFar 1 0 "person" 2 with hits := 5 }

/-- A tracker whose pool holds `tLow` then `tHigh`. -/
def sC : EnhancedTracker :=
  { EnhancedTracker.init 30 3 (3/10) with
      tracks := [tLow, tHigh], next_id := 3 }

lemma lastTwo_eq_none_of_short {l : List Box} (h : l.length < 2) :
    lastTwo l = none := by
  unfold lastTwo
  match hr : l.reverse with
  | [] => rfl
  | [a] => rfl
  | a :: b :: rest =>
      exfalso
      have : l.reverse.length = l.length := l.length_reverse
      rw [hr] at this
      simp at this
      omega

lemma predictEffect_fields (t : Track) :
    (Track.predictEffect t).bbox = t.bbox ∧
    (Track.predictEffect t).confidence = t.confidence ∧
    (Track.predictEffect t).class_id = t.class_id ∧
    (Track.predictEffect t).class_name = t.class_name ∧
    (Track.predictEffect t).track_id = t.track_id ∧
    (Track.predictEffect t).hits = t.hits ∧
    (Track.predictEffect t).age = t.age ∧
    (Track.predictEffect t).time_since_update = t.time_since_update ∧
    (Track.predictEffect t).state = t.state ∧
    (Track.predictEffect t).history = t.history ∧
    (Track.predictEffect t).confidence_history = t.confidence_history ∧
    (Track.predictEffect t).stability_score = t.stability_score ∧
    (Track.predictEffect t).consistency_score = t.consistency_score ∧
    (Track.predictEffect t).quality_score = t.quality_score := by
  unfold Track.predictEffect
  cases h : lastTwo t.history with
  | none => simp
  | some pc =>
      cases pc
      simp

/-- C9: `predict()` changes only `velocity` — the box, history, scores,
hit/age/miss counters and state are untouched; the velocity changes only
when the track has at least two history entries, to
`0.7 * old + 0.3 * (instantaneous center displacement of the last two
boxes)`; and the association cost matrix over predicted tracks equals the
one over the unpredicted tracks, i.e. cost is always computed from the
last observed box, never from the predicted box. -/
theorem claim_C9_predict_zero_order_hold :
    (∀ t : Track,
      ((Track.predictEffect t).bbox = t.bbox ∧
       (Track.predictEffect t).history = t.history ∧
       (Track.predictEffect t).confidence = t.confidence ∧
       (Track.predictEffect t).stability_score = t.stability_score ∧
       (Track.predictEffect t).consistency_score = t.consistency_score ∧
       (Track.predictEffect t).quality_score = t.quality_score ∧
       (Track.predictEffect t).hits = t.hits ∧
       (Track.predictEffect t).age = t.age ∧
       (Track.predictEffect t).time_since_update = t.time_since_update ∧
       (Track.predictEffect t).state = t.state) ∧
      (t.history.length < 2 → Track.predictEffect t = t) ∧
      (∀ prev curr, lastTwo t.history = some (prev, curr) →
        (Track.predictEffect t).velocity =
          (7/10 * t.velocity.1 + 3/10 * (curr.cx - prev.cx),
           7/10 * t.velocity.2 + 3/10 * (curr.cy - prev.cy)))) ∧
    (∀ (tracks : List Track) (dets : List Detection),
      costMatrix (tracks.map Track.predictEffect) dets =
        costMatrix tracks dets) := by
  constructor
  · intro t
    refine ⟨?_, ?_, ?_⟩
    · obtain ⟨h1, h2, h3, h4, h5, h6, h7, h8, h9, h10, h11, h12, h13, h14⟩ :=
        predictEffect_fields t
      exact ⟨h1, h10, h2, h12, h13, h14, h6, h7, h8, h9⟩
    · intro h
      unfold Track.predictEffect
      rw [lastTwo_eq_none_of_short h]
    · intro prev curr h
      unfold Track.predictEffect
      rw [h]
  · intro tracks dets
    unfold costMatrix
    rw [List.map_map]
    apply List.map_congr_left
    intro t _
    rw [Function.comp_apply, (predictEffect_fields t).1]

/-- C9 witness: a track whose history holds `boxA` then `boxB` gets
exactly the blended velocity. -/
theorem claim_C9_witness :
    (Track.predictEffect trackH2).velocity =
      (7/10 * trackH2.velocity.1 + 3/10 * (boxB.cx - boxA.cx),
       7/10 * trackH2.velocity.2 + 3/10 * (boxB.cy - boxA.cy)) :=
  (claim_C9_predict_zero_order_hold.1 trackH2).2.2 boxA boxB (by rfl)

/-- C10: a newly constructed track, before any `update()`, has
`stability_score = 1.0`, `consistency_score = 1.0` and `quality_score`
equal to the creating detection's confidence; at confidence `1/2` that
quality is not the mean of the confidence, stability and consistency
components. -/
theorem claim_C10_fresh_track_scores :
    (∀ (b : Box) (c : ℚ) (cid : ℤ) (cn : String) (id : ℕ),
        (Track.init b c cid cn id).stability_score = 1 ∧
        (Track.init b c cid cn id).consistency_score = 1 ∧
        (Track.init b c cid cn id).quality_score = c) ∧
    (Track.init boxA (1/2) 0 "person" 1).quality_score ≠
      ((Track.init boxA (1/2) 0 "person" 1).confidence +
        (Track.init boxA (1/2) 0 "person" 1).stability_score +
        (Track.init boxA (1/2) 0 "person" 1).consistency_score) / 3 := by
  constructor
  · intro b c cid cn id
    exact ⟨rfl, rfl, rfl⟩
  · norm_num [Track.init]

/-- C5: immediately after every `Track.update(bbox, confidence)` the
state is `confirmed` iff `hits >= 3` and `quality_score > 0.6`, otherwise
(since `hits >= 1` always holds after an update) it is `tentative`; the
stored confidence is the new detection's confidence, and the quality
score has just been recomputed as the mean of confidence,
stability_score and consistency_score. -/
theorem claim_C5_confirmation_rule (sqrtFn : ℚ → ℚ) (t : Track) (b : Box)
    (c : ℚ) :
    ((Track.update sqrtFn t b c).state = TrackState.confirmed ↔
      3 ≤ (Track.update sqrtFn t b c).hits ∧
        (6:ℚ)/10 < (Track.update sqrtFn t b c).quality_score) ∧
    ((Track.update sqrtFn t b c).state = TrackState.confirmed ∨
      (Track.update sqrtFn t b c).state = TrackState.tentative) ∧
    (Track.update sqrtFn t b c).confidence = c ∧
    (Track.update sqrtFn t b c).quality_score =
      (c + (Track.update sqrtFn t b c).stability_score +
        (Track.update sqrtFn t b c).consistency_score) / 3 := by
  have h1 : 1 ≤ t.hits + 1 := Nat.le_add_left 1 t.hits
  simp only [Track.update, h1, if_true]
  split_ifs <;> simp_all

/-- C1 counterexample: with `max_tracks_per_frame = 1`,
`min_track_duration = 3`, a pool `[tLow, tHigh]` (hits 1 and 5) and no
detections, the source emits nothing (cap first, then hits filter), while
filtering first and capping second would emit the long-lived track. -/
theorem claim_C1_counterexample :
    (TrackingService.processFrame noMatchCore (fun q => q) 1 3 sC []).2 = []
    ∧ (((EnhancedTracker.update noMatchCore (fun q => q) sC
          (filter_detections 1 [])).tracks.filter
            (fun t => decide (3 ≤ t.hits))).take 1) ≠ [] := by
  constructor
  · with_unfolding_all rfl
  · with_unfolding_all decide

/-- C1 amended: the source applies the cap to the tracker returned list
first and the `hits`-based output filter second; the tracker state after
the frame is the full `update` result either way. -/
theorem claim_C1_amended
    (core : List Detection → List Track → AssocResult) (sqrtFn : ℚ → ℚ)
    (maxT minD : ℕ) (s : EnhancedTracker) (dets : List Detection) :
    (TrackingService.processFrame core sqrtFn maxT minD s dets).2 =
      ((EnhancedTracker.update core sqrtFn s
          (filter_detections maxT dets)).tracks.take maxT).filter
        (fun t => decide (minD ≤ t.hits)) ∧
    (TrackingService.processFrame core sqrtFn maxT minD s dets).1 =
      EnhancedTracker.update core sqrtFn s (filter_detections maxT dets) := by
  unfold TrackingService.processFrame
  refine ⟨?_, rfl⟩
  dsimp only
  split_ifs with h
  · rfl
  · rw [List.take_of_length_le (by omega)]

/-- C6 evidence (code bug): the malformed detection `badDet`
(`x2 <= x1`, `y2 <= y1`, confidence 2) passes `filter_detections`
unchanged and, fed to a fresh tracker, silently becomes an active track
(its box is in the pool), for every associator core and square root. -/
theorem claim_C6_no_validation :
    filter_detections 10 [badDet] = [badDet] ∧
    badDet.bbox.x2 ≤ badDet.bbox.x1 ∧ badDet.bbox.y2 ≤ badDet.bbox.y1 ∧
    1 < badDet.confidence ∧
    ∀ (core : List Detection → List Track → AssocResult) (sqrtFn : ℚ → ℚ),
      (EnhancedTracker.update core sqrtFn (EnhancedTracker.init 30 3 (3/10))
          [badDet]).tracks.map Track.bbox = [badDet.bbox] := by
  refine ⟨by with_unfolding_all rfl, by with_unfolding_all decide,
    by with_unfolding_all decide, by with_unfolding_all decide, ?_⟩
  intro core sqrtFn
  norm_num [EnhancedTracker.update, EnhancedTracker.updateTrace,
    EnhancedTracker.init, associate, createTracks, findMatch, applyMatch,
    Track.init, Track.markMissed, Track.predictEffect, lastTwo, badDet]

lemma greedy_diverges_aux (fuel : ℕ) :
    ∀ (i : ℕ) (dets : List Detection) (matched : List (Track × Detection)),
      (∀ x ∈ dets, x = detA) → i < dets.length →
      greedyLoop (3/10) fuel i dets [trackFar] matched = none := by
  induction fuel with
  | zero => intro i dets matched _ _; rfl
  | succ fuel ih =>
      intro i dets matched hall hi
      have hd : dets.get ⟨i, hi⟩ = detA := hall _ (dets.get_mem i hi)
      have hb : bestTrack (3/10) [trackFar] detA = none := by
        with_unfolding_all rfl
      rw [greedyLoop, dif_pos hi, hd]
      simp only [hb]
      exact ih (i + 1) (dets ++ [detA]) matched
        (by
          intro x hx
          rcases List.mem_append.mp hx with h | h
          · exact hall x h
          · simpa using h)
        (by simp [List.length_append]; omega)

/-- C2 evidence (code bug): on one detection at `boxA` and one track at
`boxFar` (IoU 0, below the 0.3 threshold), `greedy_assignment` never
terminates — the unmatched detection is re-appended to the list being
iterated, so the loop exhausts any amount of fuel. -/
theorem claim_C2_greedy_fallback_diverges :
    ∀ fuel : ℕ, greedy_assignment (3/10) fuel [detA] [trackFar] = none := by
  intro fuel
  have hs : sortByConfDesc [detA] = [detA] := rfl
  unfold greedy_assignment
  rw [hs]
  exact greedy_diverges_aux fuel 0 [detA] []
    (by intro x hx; simpa using hx) (by simp)

lemma bestTrackAux_sound (thr : ℚ) (d : Detection) :
    ∀ (pool : List Track) (acc : Option Track × ℚ),
      (∀ t, acc.1 = some t → thr < iou t.bbox d.bbox) →
      ∀ t, (bestTrackAux thr d acc pool).1 = some t →
        thr < iou t.bbox d.bbox := by
  intro pool
  induction pool with
  | nil => intro acc hacc t ht; exact hacc t ht
  | cons u rest ih =>
      intro acc hacc t ht
      rw [bestTrackAux] at ht
      refine ih _ ?_ t ht
      intro v hv
      by_cases hcond :
          acc.2 < iou u.bbox d.bbox ∧ thr < iou u.bbox d.bbox
      · rw [if_pos hcond] at hv
        obtain rfl : u = v := Option.some.inj hv
        exact hcond.2
      · rw [if_neg hcond] at hv
        exact hacc v hv

lemma bestTrack_some_iou {thr : ℚ} {pool : List Track} {d : Detection}
    {t : Track} (h : bestTrack thr pool d = some t) :
    thr < iou t.bbox d.bbox :=
  bestTrackAux_sound thr d pool (none, 0) (by intro v hv; cases hv) t h

lemma lsaSplitAux_sound (thr : ℚ) (tracks : List Track)
    (dets : List Detection) :
    ∀ (pairs : List (ℕ × ℕ))
      (acc : List (Track × Detection) × List Track × List Detection),
      (∀ p ∈ acc.1, thr < iou p.1.bbox p.2.bbox) →
      ∀ p ∈ (lsaSplitAux thr tracks dets acc pairs).1,
        thr < iou p.1.bbox p.2.bbox := by
  intro pairs
  induction pairs with
  | nil => intro acc hacc p hp; exact hacc p hp
  | cons ij rest ih =>
      intro acc hacc p hp
      rw [lsaSplitAux] at hp
      split_ifs at hp with hcond
      · refine ih _ ?_ p hp
        intro q hq
        rcases List.mem_append.mp hq with h1 | h2
        · exact hacc q h1
        · obtain rfl : q = (tracks.getD ij.1 default, dets.getD ij.2 default) := by
            simpa using h2
          show thr < iou (tracks.getD ij.1 default).bbox
            (dets.getD ij.2 default).bbox
          linarith
      · exact ih (acc.1, acc.2.1 ++ [tracks.getD ij.1 default],
          acc.2.2 ++ [dets.getD ij.2 default]) hacc p hp

lemma greedyLoop_matched_iou (thr : ℚ) :
    ∀ (fuel i : ℕ) (dets : List Detection) (pool : List Track)
      (matched : List (Track × Detection)) (res : AssocResult),
      (∀ p ∈ matched, thr < iou p.1.bbox p.2.bbox) →
      greedyLoop thr fuel i dets pool matched = some res →
      ∀ p ∈ res.1, thr < iou p.1.bbox p.2.bbox := by
  intro fuel
  induction fuel with
  | zero =>
      intro i dets pool matched res _ h
      exact absurd h (by rw [greedyLoop]; simp)
  | succ fuel ih =>
      intro i dets pool matched res hm h
      rw [greedyLoop] at h
      by_cases hi : i < dets.length
      · rw [dif_pos hi] at h
        dsimp only at h
        cases hb : bestTrack thr pool (dets.get ⟨i, hi⟩) with
        | some t =>
            rw [hb] at h
            refine ih _ _ _ _ _ ?_ h
            intro p hp
            rcases List.mem_append.mp hp with hp1 | hp2
            · exact hm p hp1
            · obtain rfl : p = (t, dets.get ⟨i, hi⟩) := by simpa using hp2
              exact bestTrack_some_iou hb
        | none =>
            rw [hb] at h
            exact ih _ _ _ _ _ hm h
      · rw [dif_neg hi] at h
        obtain rfl := Option.some.inj h
        intro p hp
        exact hm p hp

/-- C8: under both association paths, every accepted match has IoU
strictly above the threshold: the exact-solver branch filters proposed
pairs to `cost < 1 - iou_threshold`, and the greedy fallback accepts a
track only under `iou > iou_threshold` (whenever the loop terminates at
all, and whatever the solver proposed). -/
theorem claim_C8_accepted_matches_above_threshold :
    (∀ (thr : ℚ) (tracks : List Track) (dets : List Detection)
        (pairs : List (ℕ × ℕ)),
        ∀ p ∈ (hungarianAssoc thr tracks dets pairs).1,
          thr < iou p.1.bbox p.2.bbox) ∧
    (∀ (thr : ℚ) (fuel : ℕ) (dets : List Detection) (tracks : List Track)
        (res : AssocResult),
        greedy_assignment thr fuel dets tracks = some res →
        ∀ p ∈ res.1, thr < iou p.1.bbox p.2.bbox) := by
  constructor
  · intro thr tracks dets pairs p hp
    have hh : (hungarianAssoc thr tracks dets pairs).1 =
        (lsaSplit thr tracks dets pairs).1 := rfl
    rw [hh] at hp
    exact lsaSplitAux_sound thr tracks dets pairs ([], [], [])
      (by intro q hq; cases hq) p hp
  · intro thr fuel dets tracks res h
    exact greedyLoop_matched_iou thr fuel 0 (sortByConfDesc dets) tracks []
      res (by intro q hq; cases hq) h

/-- C8 witness: with one track and one detection at the same box
(IoU 1 > 0.3), the solver pair `(0, 0)` is accepted by the exact-solver
branch, and the theorem instantiates to `0.3 < 1`. -/
theorem claim_C8_witness : (3:ℚ)/10 < iou trackA.bbox detA.bbox :=
  claim_C8_accepted_matches_above_threshold.1 (3/10) [trackA] [detA]
    [(0, 0)] (trackA, detA) (by with_unfolding_all decide)

lemma associate_sound {core : List Detection → List Track → AssocResult}
    (hcore : CoreSound core) (ds : List Detection) (ts : List Track) :
    (∀ p ∈ (associate core ds ts).1, p.1 ∈ ts ∧ p.2 ∈ ds) ∧
    (∀ d ∈ (associate core ds ts).2.1, d ∈ ds) ∧
    (∀ t ∈ (associate core ds ts).2.2, t ∈ ts) := by
  unfold associate
  split_ifs with h1 h2
  · refine ⟨?_, ?_, ?_⟩
    · intro p hp; cases hp
    · intro d hd; exact hd
    · intro t ht; cases ht
  · refine ⟨?_, ?_, ?_⟩
    · intro p hp; cases hp
    · intro d hd; cases hd
    · intro t ht; exact ht
  · exact hcore ds ts

lemma createTracks_mem :
    ∀ (n : ℕ) (ds : List Detection) (t : Track), t ∈ createTracks n ds →
      (∃ d ∈ ds, t.confidence = d.confidence) ∧
      n ≤ t.track_id ∧ t.track_id < n + ds.length := by
  intro n ds
  induction ds generalizing n with
  | nil => intro t ht; cases ht
  | cons d rest ih =>
      intro t ht
      rw [createTracks] at ht
      rcases List.mem_cons.mp ht with h1 | h2
      · subst h1
        refine ⟨⟨d, List.mem_cons_self d rest, rfl⟩, le_refl n, ?_⟩
        show n < n + (d :: rest).length
        simp only [List.length_cons]
        omega
      · obtain ⟨⟨e, he, hc⟩, hlo, hhi⟩ := ih (n + 1) t h2
        refine ⟨⟨e, List.mem_cons_of_mem d he, hc⟩, by omega, ?_⟩
        simp only [List.length_cons]
        omega

/-- C7: low-confidence detections never create tracks and never match
tentative tracks.  For every associator core meeting the
`associate_detections_to_tracks` contract: every freshly created track
carries confidence at least 0.5 (it was born from a high-confidence
detection unmatched after Stages A and B); every Stage A or Stage B match
consumes a high-confidence detection; and every Stage C match (the only
stage fed the low-confidence detections) pairs a confirmed track that the
high-confidence stages left unmatched. -/
theorem claim_C7_low_confidence_policy
    (core : List Detection → List Track → AssocResult) (sqrtFn : ℚ → ℚ)
    (s : EnhancedTracker) (dets : List Detection) (hcore : CoreSound core) :
    (∀ t ∈ (s.updateTrace core sqrtFn dets).created,
        (1:ℚ)/2 ≤ t.confidence) ∧
    (∀ p ∈ (s.updateTrace core sqrtFn dets).matchedA ++
        (s.updateTrace core sqrtFn dets).matchedB,
        (1:ℚ)/2 ≤ p.2.confidence) ∧
    (∀ p ∈ (s.updateTrace core sqrtFn dets).matchedC,
        p.1.state = TrackState.confirmed ∧
        p.1 ∈ (s.updateTrace core sqrtFn dets).unmatchedConfirmedAfterHigh) := by
  have hhigh : (s.updateTrace core sqrtFn dets).highDets =
      dets.filter (fun d => decide ((1:ℚ)/2 ≤ d.confidence)) := rfl
  have hconf : (s.updateTrace core sqrtFn dets).confirmedTracks =
      (s.tracks.map Track.predictEffect).filter
        (fun t => decide (t.state = TrackState.confirmed)) := rfl
  have hA : (s.updateTrace core sqrtFn dets).matchedA =
      (associate core (s.updateTrace core sqrtFn dets).highDets
        (s.updateTrace core sqrtFn dets).confirmedTracks).1 := rfl
  have hUH : (s.updateTrace core sqrtFn dets).unmatchedHigh =
      (associate core (s.updateTrace core sqrtFn dets).highDets
        (s.updateTrace core sqrtFn dets).confirmedTracks).2.1 := rfl
  have hUC : (s.updateTrace core sqrtFn dets).unmatchedConfirmed =
      (associate core (s.updateTrace core sqrtFn dets).highDets
        (s.updateTrace core sqrtFn dets).confirmedTracks).2.2 := rfl
  have hB : (s.updateTrace core sqrtFn dets).matchedB =
      (associate core (s.updateTrace core sqrtFn dets).unmatchedHigh
        (s.updateTrace core sqrtFn dets).tentativeTracks).1 := rfl
  have hUCAH : (s.updateTrace core sqrtFn dets).unmatchedConfirmedAfterHigh =
      (s.updateTrace core sqrtFn dets).unmatchedConfirmed.filter
        (fun t => decide
          (¬ t ∈ (s.updateTrace core sqrtFn dets).matchedB.map Prod.fst)) :=
    rfl
  have hC : (s.updateTrace core sqrtFn dets).matchedC =
      (associate core (s.updateTrace core sqrtFn dets).lowDets
        (s.updateTrace core sqrtFn dets).unmatchedConfirmedAfterHigh).1 := rfl
  have hcr : (s.updateTrace core sqrtFn dets).created =
      createTracks s.next_id
        ((s.updateTrace core sqrtFn dets).unmatchedHigh.filter
          (fun d => decide
            (¬ d ∈ (s.updateTrace core sqrtFn dets).matchedB.map Prod.snd))) :=
    rfl
  have highConf : ∀ d ∈ (s.updateTrace core sqrtFn dets).highDets,
      (1:ℚ)/2 ≤ d.confidence := by
    intro d hd
    rw [hhigh] at hd
    have := List.mem_filter.mp hd
    exact of_decide_eq_true this.2
  have uhHigh : ∀ d ∈ (s.updateTrace core sqrtFn dets).unmatchedHigh,
      d ∈ (s.updateTrace core sqrtFn dets).highDets := by
    intro d hd
    rw [hUH] at hd
    exact (associate_sound hcore _ _).2.1 d hd
  refine ⟨?_, ?_, ?_⟩
  · intro t ht
    rw [hcr] at ht
    obtain ⟨⟨d, hd, hconf2⟩, _, _⟩ := createTracks_mem _ _ t ht
    rw [hconf2]
    exact highConf d (uhHigh d (List.mem_filter.mp hd).1)
  · intro p hp
    rcases List.mem_append.mp hp with h1 | h2
    · rw [hA] at h1
      exact highConf p.2 ((associate_sound hcore _ _).1 p h1).2
    · rw [hB] at h2
      exact highConf p.2 (uhHigh p.2 ((associate_sound hcore _ _).1 p h2).2)
  · intro p hp
    rw [hC] at hp
    have hmem := ((associate_sound hcore _ _).1 p hp).1
    refine ⟨?_, hmem⟩
    rw [hUCAH] at hmem
    have hmem2 := (List.mem_filter.mp hmem).1
    rw [hUC] at hmem2
    have hmem3 := (associate_sound hcore _ _).2.2 p.1 hmem2
    rw [hconf] at hmem3
    exact of_decide_eq_true (List.mem_filter.mp hmem3).2

/-- C7 witness: for the trivial (contract-satisfying) core, one
high-confidence detection on a fresh tracker creates exactly one track,
and the theorem yields its confidence bound. -/
theorem claim_C7_witness :
    (1:ℚ)/2 ≤ (Track.init boxA 1 0 "person" 1).confidence :=
  (claim_C7_low_confidence_policy noMatchCore (fun q => q)
      (EnhancedTracker.init 30 3 (3/10)) [detA]
      (by
        intro ds ts
        refine ⟨?_, ?_, ?_⟩
        · intro p hp; cases hp
        · intro d hd; exact hd
        · intro t ht; exact ht)).1
    (Track.init boxA 1 0 "person" 1) (by with_unfolding_all decide)

lemma applyMatch_track_id (sqrtFn : ℚ → ℚ)
    (ms : List (Track × Detection)) (t : Track) :
    (applyMatch sqrtFn ms t).track_id = t.track_id := by
  unfold applyMatch
  cases findMatch ms t <;> rfl

lemma predictEffect_track_id (t : Track) :
    (Track.predictEffect t).track_id = t.track_id :=
  (predictEffect_fields t).2.2.2.2.1

lemma update_tracks_chars
    (core : List Detection → List Track → AssocResult) (sqrtFn : ℚ → ℚ)
    (s : EnhancedTracker) (dets : List Detection) :
    ∀ t ∈ (EnhancedTracker.update core sqrtFn s dets).tracks,
      t.time_since_update < s.max_age ∧
      (t.track_id ∈ s.tracks.map Track.track_id ∨
        (s.next_id ≤ t.track_id ∧
          t.track_id < (EnhancedTracker.update core sqrtFn s dets).next_id)) := by
  have hcr : (s.updateTrace core sqrtFn dets).created =
      createTracks s.next_id
        ((s.updateTrace core sqrtFn dets).unmatchedHigh.filter
          (fun d => decide
            (¬ d ∈ (s.updateTrace core sqrtFn dets).matchedB.map Prod.snd))) :=
    rfl
  have hnn : (EnhancedTracker.update core sqrtFn s dets).next_id =
      s.next_id + ((s.updateTrace core sqrtFn dets).unmatchedHigh.filter
        (fun d => decide
          (¬ d ∈ (s.updateTrace core sqrtFn dets).matchedB.map
            Prod.snd))).length := rfl
  have hsurv : (EnhancedTracker.update core sqrtFn s dets).tracks =
      ((s.tracks.map Track.predictEffect ++
        (s.updateTrace core sqrtFn dets).created).map
          (applyMatch sqrtFn
            ((s.updateTrace core sqrtFn dets).matchedA ++
              (s.updateTrace core sqrtFn dets).matchedB ++
              (s.updateTrace core sqrtFn dets).matchedC))).filter
        (fun t => decide (t.time_since_update < s.max_age)) := rfl
  intro t ht
  rw [hsurv] at ht
  obtain ⟨hmem, htsu⟩ := List.mem_filter.mp ht
  refine ⟨of_decide_eq_true htsu, ?_⟩
  obtain ⟨u, hu, rfl⟩ := List.mem_map.mp hmem
  rw [applyMatch_track_id]
  rcases List.mem_append.mp hu with h1 | h2
  · left
    obtain ⟨v, hv, rfl⟩ := List.mem_map.mp h1
    rw [predictEffect_track_id]
    exact List.mem_map.mpr ⟨v, hv, rfl⟩
  · right
    rw [hcr] at h2
    obtain ⟨_, hlo, hhi⟩ := createTracks_mem _ _ u h2
    refine ⟨hlo, ?_⟩
    rw [hnn]
    exact hhi

lemma update_next_id_mono
    (core : List Detection → List Track → AssocResult) (sqrtFn : ℚ → ℚ)
    (s : EnhancedTracker) (dets : List Detection) :
    s.next_id ≤ (EnhancedTracker.update core sqrtFn s dets).next_id := by
  have hnn : (EnhancedTracker.update core sqrtFn s dets).next_id =
      s.next_id + ((s.updateTrace core sqrtFn dets).unmatchedHigh.filter
        (fun d => decide
          (¬ d ∈ (s.updateTrace core sqrtFn dets).matchedB.map
            Prod.snd))).length := rfl
  rw [hnn]
  exact Nat.le_add_right _ _

lemma absent_step
    (core : List Detection → List Track → AssocResult) (sqrtFn : ℚ → ℚ)
    (s : EnhancedTracker) (dets : List Detection) (id : ℕ)
    (h1 : ¬ id ∈ s.tracks.map Track.track_id) (h2 : id < s.next_id) :
    ¬ id ∈ (EnhancedTracker.update core sqrtFn s dets).tracks.map
        Track.track_id ∧
      id < (EnhancedTracker.update core sqrtFn s dets).next_id := by
  constructor
  · intro hmem
    obtain ⟨t, ht, rfl⟩ := List.mem_map.mp hmem
    rcases (update_tracks_chars core sqrtFn s dets t ht).2 with hin | ⟨hge, _⟩
    · exact h1 hin
    · omega
  · exact lt_of_lt_of_le h2 (update_next_id_mono core sqrtFn s dets)

lemma absent_run
    (core : List Detection → List Track → AssocResult) (sqrtFn : ℚ → ℚ) :
    ∀ (batches : List (List Detection)) (s : EnhancedTracker) (id : ℕ),
      ¬ id ∈ s.tracks.map Track.track_id → id < s.next_id →
      ¬ id ∈ (batches.foldl (EnhancedTracker.update core sqrtFn)
          s).tracks.map Track.track_id := by
  intro batches
  induction batches with
  | nil => intro s id h1 _; exact h1
  | cons b rest ih =>
      intro s id h1 h2
      rw [List.foldl_cons]
      obtain ⟨h1a, h2a⟩ := absent_step core sqrtFn s b id h1 h2
      exact ih _ id h1a h2a

/-- C4: eviction is permanent and ids are never reused.  For every
associator core and square root: (1) every track in the pool returned by
`update` has `time_since_update < max_age`, so a track that reached
`max_age` is gone already from the call that aged it and from every later
one; (2) every returned track either keeps an id the pool already had or
carries a fresh id at least `next_id` (and below the new `next_id`), so an
evicted id below `next_id` can never reappear; (3) over any further
sequence of update calls, an id absent from the pool and below `next_id`
stays absent — a reappearing identical detection can only receive a fresh,
strictly larger id. -/
theorem claim_C4_eviction_permanent
    (core : List Detection → List Track → AssocResult) (sqrtFn : ℚ → ℚ)
    (s : EnhancedTracker) :
    (∀ dets, ∀ t ∈ (EnhancedTracker.update core sqrtFn s dets).tracks,
        t.time_since_update < s.max_age) ∧
    (∀ dets, ∀ t ∈ (EnhancedTracker.update core sqrtFn s dets).tracks,
        t.track_id ∈ s.tracks.map Track.track_id ∨
          (s.next_id ≤ t.track_id ∧
            t.track_id < (EnhancedTracker.update core sqrtFn s dets).next_id)) ∧
    (∀ (batches : List (List Detection)) (id : ℕ),
        ¬ id ∈ s.tracks.map Track.track_id → id < s.next_id →
        ¬ id ∈ (batches.foldl (EnhancedTracker.update core sqrtFn)
            s).tracks.map Track.track_id) := by
  refine ⟨?_, ?_, ?_⟩
  · intro dets t ht
    exact (update_tracks_chars core sqrtFn s dets t ht).1
  · intro dets t ht
    exact (update_tracks_chars core sqrtFn s dets t ht).2
  · intro batches id h1 h2
    exact absent_run core sqrtFn batches s id h1 h2

/-- C4 witness: id 0 was never assigned by a fresh tracker
(`next_id = 1`), and it indeed never appears over a run. -/
theorem claim_C4_witness :
    ¬ 0 ∈ (([[detA]] : List (List Detection)).foldl
        (EnhancedTracker.update noMatchCore (fun q => q))
        (EnhancedTracker.init 30 3 (3/10))).tracks.map Track.track_id :=
  (claim_C4_eviction_permanent noMatchCore (fun q => q)
      (EnhancedTracker.init 30 3 (3/10))).2.2 [[detA]] 0
    (by with_unfolding_all decide) (by with_unfolding_all decide)

lemma bumpDuration_keys (d : List (ℕ × ℕ)) (id : ℕ) :
    (bumpDuration d id).map Prod.fst =
      if id ∈ d.map Prod.fst then d.map Prod.fst
      else d.map Prod.fst ++ [id] := by
  induction d with
  | nil => simp [bumpDuration]
  | cons kv rest ih =>
      obtain ⟨k, v⟩ := kv
      by_cases h : k = id
      · subst h
        simp [bumpDuration]
      · by_cases hm : id ∈ rest.map Prod.fst
        · simp [bumpDuration, h, ih, hm, Ne.symm h]
        · simp [bumpDuration, h, ih, hm, Ne.symm h]

lemma durVal_bump_same (d : List (ℕ × ℕ)) (id : ℕ) :
    durVal (bumpDuration d id) id = durVal d id + 1 := by
  induction d with
  | nil => simp [durVal, bumpDuration, List.lookup]
  | cons kv rest ih =>
      obtain ⟨k, v⟩ := kv
      by_cases h : k = id
      · subst h
        simp [durVal, bumpDuration, List.lookup]
      · have hb : (id == k) = false := by simpa using Ne.symm h
        simp [durVal, bumpDuration, h, List.lookup, hb] at ih ⊢
        exact ih

lemma durVal_bump_other (d : List (ℕ × ℕ)) (id k : ℕ) (h : k ≠ id) :
    durVal (bumpDuration d id) k = durVal d k := by
  induction d with
  | nil =>
      have hb : (k == id) = false := by simpa using h
      simp [durVal, bumpDuration, List.lookup, hb]
  | cons kv rest ih =>
      obtain ⟨k2, v⟩ := kv
      by_cases h2 : k2 = id
      · have hbid : (k == id) = false := by simpa using h
        simp [durVal, bumpDuration, h2, List.lookup, hbid]
      · by_cases h3 : k = k2
        · have hb : (k == k2) = true := by simpa using h3
          simp [durVal, bumpDuration, h2, List.lookup, hb]
        · have hb : (k == k2) = false := by simpa using h3
          simp [durVal, bumpDuration, h2, List.lookup, hb]
          exact ih

lemma bumpDuration_sum (d : List (ℕ × ℕ)) (id : ℕ) :
    ((bumpDuration d id).map Prod.snd).sum = (d.map Prod.snd).sum + 1 := by
  induction d with
  | nil => simp [bumpDuration]
  | cons kv rest ih =>
      obtain ⟨k, v⟩ := kv
      by_cases h : k = id
      · subst h
        simp [bumpDuration]
        omega
      · simp [bumpDuration, h, ih]
        omega

lemma durInv_step {done : List ℕ} {d : List (ℕ × ℕ)} (h : DurInv done d)
    (a : ℕ) : DurInv (done ++ [a]) (bumpDuration d a) := by
  obtain ⟨hnd, hmem, hval, hsum⟩ := h
  refine ⟨?_, ?_, ?_, ?_⟩
  · rw [bumpDuration_keys]
    split_ifs with hin
    · exact hnd
    · rw [List.nodup_append]
      exact ⟨hnd, List.nodup_singleton a, by simpa using hin⟩
  · intro k
    rw [bumpDuration_keys]
    split_ifs with hin
    · have ha : a ∈ done := (hmem a).mp hin
      rw [hmem]
      simp only [List.mem_append, List.mem_singleton]
      constructor
      · intro hk
        exact Or.inl hk
      · intro hk
        rcases hk with hk | hk
        · exact hk
        · exact hk ▸ ha
    · simp only [List.mem_append, List.mem_singleton, hmem]
  · intro k
    by_cases hk : k = a
    · subst hk
      rw [durVal_bump_same, hval]
      simp [List.count_append]
    · rw [durVal_bump_other _ _ _ hk, hval]
      have : List.count k [a] = 0 := by
        simp [List.count_singleton, hk]
      simp [List.count_append, this]
  · rw [bumpDuration_sum, hsum]
    simp

lemma durInv_fold :
    ∀ (ids done : List ℕ) (d : List (ℕ × ℕ)), DurInv done d →
      DurInv (done ++ ids) (ids.foldl bumpDuration d) := by
  intro ids
  induction ids with
  | nil => intro done d h; simpa using h
  | cons a rest ih =>
      intro done d h
      rw [List.foldl_cons]
      have h3 := ih (done ++ [a]) (bumpDuration d a) (durInv_step h a)
      simpa [List.append_assoc] using h3

lemma statsInner_fold :
    ∀ (ids : List ℕ) (m c : ℕ) (dur : List (ℕ × ℕ)),
      ids.foldl (fun a id => (max a.1 id, a.2.1, bumpDuration a.2.2 id))
          (m, c, dur) =
        (ids.foldl max m, c, ids.foldl bumpDuration dur) := by
  intro ids
  induction ids with
  | nil => intro m c dur; rfl
  | cons a rest ih =>
      intro m c dur
      rw [List.foldl_cons, List.foldl_cons, List.foldl_cons]
      exact ih (max m a) c (bumpDuration dur a)

lemma statsOuter_fold :
    ∀ (frames : List (List ℕ)) (m c : ℕ) (dur : List (ℕ × ℕ)),
      frames.foldl
          (fun acc frame =>
            let acc1 := (acc.1, acc.2.1 + frame.length, acc.2.2)
            frame.foldl
              (fun a id => (max a.1 id, a.2.1, bumpDuration a.2.2 id)) acc1)
          (m, c, dur) =
        (frames.flatten.foldl max m,
          c + (frames.map List.length).sum,
          frames.flatten.foldl bumpDuration dur) := by
  intro frames
  induction frames with
  | nil => intro m c dur; simp
  | cons f rest ih =>
      intro m c dur
      rw [List.foldl_cons]
      dsimp only
      rw [statsInner_fold, ih]
      simp [List.foldl_append, Nat.add_assoc]

/-- C3 counterexample: a single frame emitting the single track id 5 has
one distinct track id, but the source reports `total_tracks = 5` — the
maximum id, not the distinct count (`total_tracks = max(total_tracks,
track_id)` in the accumulation loop). -/
theorem claim_C3_counterexample :
    (calculate_tracking_stats [[5]]).total_tracks = 5 ∧
    ([[5]] : List (List ℕ)).flatten.dedup.length = 1 ∧ (5:ℕ) ≠ 1 := by
  refine ⟨by with_unfolding_all rfl, by with_unfolding_all rfl, by decide⟩

/-- C3 amended: `tracking_stats` reports `total_detections` equal to the
total number of emitted track entries and `avg_track_duration` equal to
the sum of per-track durations (the per-id emission counts recorded in
`track_durations`) divided by the number of distinct emitted ids (0 when
none) — but `total_tracks` is the maximum emitted track id, not the
number of distinct ids. -/
theorem claim_C3_amended_stats (frames : List (List ℕ)) :
    (calculate_tracking_stats frames).total_detections =
        (frames.map List.length).sum ∧
    (calculate_tracking_stats frames).total_tracks =
        frames.flatten.foldl max 0 ∧
    (calculate_tracking_stats frames).track_durations.length =
        frames.flatten.dedup.length ∧
    (∀ k, durVal (calculate_tracking_stats frames).track_durations k =
        frames.flatten.count k) ∧
    ((calculate_tracking_stats frames).track_durations.map Prod.snd).sum =
        frames.flatten.length ∧
    (calculate_tracking_stats frames).avg_track_duration =
      (if frames.flatten.length = 0 then (0:ℚ)
       else (frames.flatten.length : ℚ) /
         (frames.flatten.dedup.length : ℚ)) := by
  have hfold := statsOuter_fold frames 0 0 []
  have h0 : DurInv [] ([] : List (ℕ × ℕ)) := by
    refine ⟨List.nodup_nil, ?_, ?_, rfl⟩
    · intro k
      simp
    · intro k
      simp [durVal]
  have hInv : DurInv frames.flatten (frames.flatten.foldl bumpDuration []) := by
    simpa using durInv_fold frames.flatten [] [] h0
  obtain ⟨hnd, hmem, hval, hsum⟩ := hInv
  have hdur : (calculate_tracking_stats frames).track_durations =
      frames.flatten.foldl bumpDuration [] := by
    simp only [calculate_tracking_stats, hfold]
  have hdet : (calculate_tracking_stats frames).total_detections =
      (frames.map List.length).sum := by
    simp only [calculate_tracking_stats, hfold]
    simp
  have hmax : (calculate_tracking_stats frames).total_tracks =
      frames.flatten.foldl max 0 := by
    simp only [calculate_tracking_stats, hfold]
  have hlen : (calculate_tracking_stats frames).track_durations.length =
      frames.flatten.dedup.length := by
    rw [hdur]
    have h1 : ((frames.flatten.foldl bumpDuration []).map Prod.fst).toFinset
        = frames.flatten.toFinset := by
      ext x
      simp only [List.mem_toFinset]
      exact hmem x
    have h2 := List.toFinset_card_of_nodup hnd
    have h3 := List.card_toFinset frames.flatten
    have h4 : ((frames.flatten.foldl bumpDuration []).map Prod.fst).length
        = (frames.flatten.foldl bumpDuration []).length := by
      simp
    rw [h1, h3] at h2
    omega
  refine ⟨hdet, hmax, hlen, ?_, ?_, ?_⟩
  · intro k
    rw [hdur]
    exact hval k
  · rw [hdur]
    exact hsum
  · have havg : (calculate_tracking_stats frames).avg_track_duration =
        (if (frames.flatten.foldl bumpDuration []).length = 0 then (0:ℚ)
         else (((frames.flatten.foldl bumpDuration []).map Prod.snd).sum :
             ℚ) / ((frames.flatten.foldl bumpDuration []).length : ℚ)) := by
      simp only [calculate_tracking_stats, hfold]
    rw [havg]
    have hlen2 : (frames.flatten.foldl bumpDuration []).length =
        frames.flatten.dedup.length := by
      rw [hdur] at hlen
      exact hlen
    rw [hlen2, hsum]
    by_cases hnil : frames.flatten = []
    · rw [hnil]
      simp
    · have hA : ¬ frames.flatten.length = 0 := by
        intro hc
        exact hnil (List.length_eq_zero.mp hc)
      have hB : ¬ frames.flatten.dedup.length = 0 := by
        simp only [List.length_eq_zero, List.dedup_eq_nil]
        exact hnil
      rw [if_neg hB, if_neg hA]
